import Mathlib

set_option maxHeartbeats 1000000

/-! Shallow embedding of the ez-redirect backend state manager
    (src/backend/redirect_state.py and src/backend/app.py).

    Python strings are modelled as lists of characters (ASCII case mapping,
    which covers every string the repository manipulates); wall-clock time
    (time.time()) is a rational number supplied as an explicit argument; the
    persisted JSON documents are identified with the in-memory state, since
    every mutator saves synchronously while holding the process-wide lock,
    so the in-memory and on-disk states coincide at the end of each
    operation.  All operations run under one re-entrant lock, so they are
    modelled as sequential state transformers. -/

/-- Python str modelled as a list of characters. -/
abbrev Str := List Char

/-- Python str.lower on one character (ASCII range). -/
def lowerChar (c : Char) : Char :=
  if 65 ≤ c.toNat ∧ c.toNat ≤ 90 then Char.ofNat (c.toNat + 32) else c

/-- Python str.lower on a whole string (ASCII range). -/
def pyLower (s : Str) : Str := s.map lowerChar

/-- One character of the replace("-", " ") step of get_preset. -/
def dashToSpace (c : Char) : Char := if c = '-' then ' ' else c

/-- The query normalization of get_preset:
    name.replace("-", " ").lower(). -/
def normalizeName (s : Str) : Str := pyLower (s.map dashToSpace)

/-! ## Redirect state (redirect_state.py, redirect logic section)

    The config document is reduced to the fields the redirect logic
    touches: default_url, current_url, expires_at. -/

structure RedirectConfig where
  default_url : Str
  current_url : Str
  expires_at : Option ℚ
deriving DecidableEq, Repr

/-- redirect_state.py get_current_url, lazy expiry on read.  The source
    tests the raw stored value for truthiness (`if expires and ...`), so
    both a missing value (None) and the number 0 skip the reversion; the
    reverted state is saved before returning.  Returns the value of
    self.data["current_url"] after the possible reversion, paired with the
    state as persisted. -/
def get_current_url (now : ℚ) (s : RedirectConfig) : Str × RedirectConfig :=
  match s.expires_at with
  | none => (s.current_url, s)
  | some e =>
      if e ≠ 0 ∧ now > e then
        (s.default_url, { s with current_url := s.default_url, expires_at := none })
      else (s.current_url, s)

/-- redirect_state.py set_current_url: permanent override, clears timer. -/
def set_current_url (url : Str) (s : RedirectConfig) : RedirectConfig :=
  { s with current_url := url, expires_at := none }

/-- redirect_state.py set_temp_url: sets the url and
    expires_at = time.time() + int(seconds). -/
def set_temp_url (now : ℚ) (url : Str) (seconds : ℤ) (s : RedirectConfig) :
    RedirectConfig :=
  { s with current_url := url, expires_at := some (now + (seconds : ℚ)) }

/-- redirect_state.py clear_timer. -/
def clear_timer (s : RedirectConfig) : RedirectConfig :=
  { s with expires_at := none }

/-! ## Preset registry (redirect_state.py, presets management section)

    self.presets is an OrderedDict; it is modelled as a list of key-value
    pairs with Python dict assignment semantics: assigning to an existing
    key updates the value in place (keeping the original key object and its
    position), assigning a fresh key appends at the end. -/

structure CueData where
  headline : Str
  body_text : Str
  button_text : Str
  button_url : Str
deriving DecidableEq, Repr

structure PresetData where
  url : Str
  cue : Option CueData
deriving DecidableEq, Repr

abbrev Registry := List (Str × PresetData)

/-- Python ordered-dict assignment d[k] = v on a list of pairs. -/
def dictInsert {V : Type} (l : List (Str × V)) (k : Str) (v : V) :
    List (Str × V) :=
  match l with
  | [] => [(k, v)]
  | (k0, v0) :: rest =>
      if k0 = k then (k0, v) :: rest else (k0, v0) :: dictInsert rest k v

/-- Keys of the ordered mapping, in order. -/
def regKeys {V : Type} (l : List (Str × V)) : List Str := l.map Prod.fst

/-- redirect_state.py add_or_update_preset:
    self.presets[name] = dict with url and cue, then save. -/
def add_or_update_preset (reg : Registry) (name : Str) (url : Str)
    (cue : Option CueData) : Registry :=
  dictInsert reg name { url := url, cue := cue }

/-- redirect_state.py delete_preset: del if present, silently no-op else. -/
def delete_preset (reg : Registry) (name : Str) : Registry :=
  if name ∈ regKeys reg then reg.filter (fun e => !(e.1 = name : Bool)) else reg

/-- The rebuild loop of rename_preset: iterates the stored pairs in order,
    assigning each into a fresh ordered dict, substituting new_name for
    old_name. -/
def renameLoop (old nw : Str) (acc : Registry) : Registry → Registry
  | [] => acc
  | (k, v) :: rest =>
      renameLoop old nw (dictInsert acc (if k = old then nw else k) v) rest

/-- redirect_state.py rename_preset: returns False leaving the registry
    untouched when old_name is absent; otherwise rebuilds the ordered dict
    with the key substituted, saves, and returns True. -/
def rename_preset (reg : Registry) (old nw : Str) : Bool × Registry :=
  if old ∈ regKeys reg then (true, renameLoop old nw [] reg)
  else (false, reg)

/-- The scan loop of get_preset over the stored pairs. -/
def getPresetLoop (normalized : Str) : Registry → Option (Str × PresetData)
  | [] => none
  | (k, v) :: rest =>
      if pyLower k = normalized then some (k, v) else getPresetLoop normalized rest

/-- redirect_state.py get_preset: normalize the queried name by replacing
    dashes with spaces and lower-casing, then linearly scan for the first
    stored name whose lower-casing equals it; return the stored name
    (original casing) with its data, or None. -/
def get_preset (reg : Registry) (name : Str) : Option (Str × PresetData) :=
  getPresetLoop (normalizeName name) reg

/-- The mutations of the preset registry reachable through the API that
    the uniqueness claim quantifies over. -/
inductive PresetOp where
  | upsert (name : Str) (url : Str) (cue : Option CueData)
  | rename (old nw : Str)
deriving Repr

def applyOp (reg : Registry) : PresetOp → Registry
  | .upsert name url cue => add_or_update_preset reg name url cue
  | .rename old nw => (rename_preset reg old nw).2

def applyOps (reg : Registry) (ops : List PresetOp) : Registry :=
  ops.foldl applyOp reg

/-- Exact-name uniqueness: the keys of the ordered mapping are pairwise
    distinct strings (the invariant a Python dict maintains by itself). -/
def NodupKeys {V : Type} (l : List (Str × V)) : Prop := (regKeys l).Nodup

/-! ## Python value coercion for the HTTP layer (app.py api_temp)

    JSON payload values as FastAPI hands them to api_temp, together with
    the behaviour of the int() builtin on them.  (For int() on strings the
    optional-whitespace and underscore forms accepted by Python are
    omitted; the claims do not depend on them.) -/

inductive PyVal where
  | vnull
  | vbool (b : Bool)
  | vint (n : ℤ)
  | vfloat (q : ℚ)
  | vstr (s : Str)
  | vother (truthy : Bool)
deriving DecidableEq, Repr

/-- Digits-only parse of a decimal numeral. -/
def parseDigits (s : Str) : Option ℕ :=
  if s ≠ [] ∧ s.all Char.isDigit then
    some (s.foldl (fun a c => 10 * a + (c.toNat - 48)) 0)
  else none

/-- Python int() on a string: optional sign followed by digits. -/
def parseIntStr : Str → Option ℤ
  | '-' :: rest => (parseDigits rest).map (fun n => -(n : ℤ))
  | '+' :: rest => (parseDigits rest).map (fun n => (n : ℤ))
  | s => (parseDigits s).map (fun n => (n : ℤ))

/-- Rational truncation toward zero, as Python int() on a float. -/
def ratTrunc (q : ℚ) : ℤ := if 0 ≤ q then ⌊q⌋ else ⌈q⌉

inductive PyIntErr where
  | valueError
  | typeError
deriving DecidableEq, Repr

/-- Python int(x) for the payload values api_temp can receive: ints pass
    through, floats truncate toward zero, bools coerce, numeric strings
    parse (else ValueError), anything else raises TypeError. -/
def pyToInt : PyVal → Except PyIntErr ℤ
  | .vnull => .error .typeError
  | .vbool b => .ok (if b then 1 else 0)
  | .vint n => .ok n
  | .vfloat q => .ok (ratTrunc q)
  | .vstr s =>
      match parseIntStr s with
      | some n => .ok n
      | none => .error .valueError
  | .vother _ => .error .typeError

structure TempPayload where
  url : Option Str
  seconds : Option PyVal
deriving Repr

/-- Outcome surfaced by the HTTP layer: an HTTPException(400, detail) for
    the explicit validation rejections, or an uncaught exception (the
    TypeError int() raises on non-string non-numeric values, which the
    except ValueError clause does not catch) that aborts the request. -/
inductive ApiErr where
  | badRequest (detail : Str)
  | uncaught
deriving DecidableEq, Repr

structure TempResp where
  current_url : Str
  expires_in : ℤ
deriving DecidableEq, Repr

/-- app.py api_temp: reject a missing or falsy url, a missing seconds, and
    a seconds value on which int() raises; otherwise call
    state.set_temp_url(url, int(seconds)) and answer ok.  The state is
    returned unchanged on every rejection (validation happens before any
    state call). -/
def api_temp (p : TempPayload) (now : ℚ) (s : RedirectConfig) :
    (Except ApiErr TempResp) × RedirectConfig :=
  match p.url with
  | none => (.error (.badRequest ("Missing url").toList), s)
  | some u =>
      if u = [] then (.error (.badRequest ("Missing url").toList), s)
      else
        match p.seconds with
        | none => (.error (.badRequest ("Missing seconds").toList), s)
        | some sv =>
            match pyToInt sv with
            | .error .valueError =>
                (.error (.badRequest ("seconds must be an integer").toList), s)
            | .error .typeError => (.error .uncaught, s)
            | .ok n => (.ok { current_url := u, expires_in := n }, set_temp_url now u n s)

/-! ## Cue publisher (redirect_state.py, Supabase integration section)

    The remote interaction is modelled by passing the outcome of the one
    HTTP request a call performs as an argument; the Bool in the result
    records whether that request was performed at all.  The wall-clock
    event id (today's date string) is likewise an argument. -/

structure SupabaseConfig where
  supabase_url : Str
  supabase_api_key : Str
deriving DecidableEq, Repr

/-- get_supabase_config()["configured"]:
    bool(supabase_url and supabase_api_key). -/
def supabaseConfigured (c : SupabaseConfig) : Bool :=
  !(c.supabase_url.isEmpty) && !(c.supabase_api_key.isEmpty)

/-- What the single requests.post call comes back with: an HTTP response,
    or a requests.exceptions.RequestException. -/
inductive HttpOutcome where
  | response (status : ℕ) (body : Str)
  | transportError (msg : Str)
deriving DecidableEq, Repr

/-- The dict returned by both Supabase operations:
    a success carrying the event id, or a failure carrying the error text.
    Both operations return this as data; no exception escapes. -/
inductive CueResult where
  | success (event_id : Str)
  | failure (error : Str)
deriving DecidableEq, Repr

def CueResult.isSuccess : CueResult → Bool
  | .success _ => true
  | .failure _ => false

/-- The f-string HTTP error text. -/
def httpErrText (status : ℕ) (body : Str) : Str :=
  ("HTTP ").toList ++ (toString status).toList ++ (": ").toList ++ body

/-- The fixed-shape record posted to the cues endpoint. -/
structure CuePayloadRec where
  event_id : Str
  cue_type : Str
  headline : Str
  body_text : Str
  button_text : Str
  button_url : Str
deriving DecidableEq, Repr

/-- Payload built by post_cue_to_supabase: empty fields when cue_data is
    None (hide the banner), the cue fields otherwise. -/
def buildCuePayload (event_id preset_name : Str) (cue_data : Option CueData) :
    CuePayloadRec :=
  match cue_data with
  | none =>
      { event_id := event_id, cue_type := preset_name, headline := [],
        body_text := [], button_text := [], button_url := [] }
  | some c =>
      { event_id := event_id, cue_type := preset_name, headline := c.headline,
        body_text := c.body_text, button_text := c.button_text,
        button_url := c.button_url }

/-- redirect_state.py post_cue_to_supabase.  Short-circuits to a failure
    performing no network request when not configured; otherwise performs
    exactly one POST of the built payload (returned as the second
    component, none when no request happened) whose outcome is classified:
    status 200, 201 or 204 is success, any other status is a failure
    carrying status and body, a transport error is a failure carrying its
    text. -/
def post_cue_to_supabase (cfg : SupabaseConfig) (event_id preset_name : Str)
    (cue_data : Option CueData) (net : HttpOutcome) :
    CueResult × Option CuePayloadRec :=
  if supabaseConfigured cfg then
    (match net with
     | .response st body =>
         if st = 200 ∨ st = 201 ∨ st = 204 then CueResult.success event_id
         else CueResult.failure (httpErrText st body)
     | .transportError m => CueResult.failure m,
     some (buildCuePayload event_id preset_name cue_data))
  else (.failure ("Supabase not configured").toList, none)

/-- redirect_state.py create_event_in_supabase.  Same configuration gate
    and status classification as the cue post; the one RPC request carries
    the payload p_event_id = event_id (second component, none when no
    request happened).  On success, when a start time was supplied, a
    best-effort follow-up PATCH runs whose failure is swallowed (its own
    try/except pass), so it never affects the returned result and is not
    modelled further. -/
def create_event_in_supabase (cfg : SupabaseConfig) (event_id : Str)
    (net : HttpOutcome) : CueResult × Option Str :=
  if supabaseConfigured cfg then
    (match net with
     | .response st body =>
         if st = 200 ∨ st = 201 ∨ st = 204 then CueResult.success event_id
         else CueResult.failure (httpErrText st body)
     | .transportError m => CueResult.failure m,
     some event_id)
  else (.failure ("Supabase not configured").toList, none)

/-! ## Event scheduler (redirect_state.py, scheduler section)

    One loop iteration (every 30 seconds) runs _check_scheduled_events then
    _check_manual_events.  Wall-clock data read from datetime.now() is
    passed in as a snapshot: today's date string, the lower-cased weekday
    name, and the hour and minute numbers.  The Supabase configuration and
    the network outcome each createEvent call would meet are supplied by an
    oracle indexed by the position of the event in its list; a tick returns
    the list of createEvent calls it performed together with their
    results. -/

structure SchedNow where
  dateStr : Str
  weekday : Str
  hour : ℤ
  minute : ℤ

/-- Parsing of event_hour, event_min = map(int, event_time.split(":")):
    exactly two colon-separated integer fields, else the ValueError path. -/
def parseHM (t : Str) : Option (ℤ × ℤ) :=
  match List.splitOn ':' t with
  | [h, m] =>
      match parseIntStr h, parseIntStr m with
      | some a, some b => some (a, b)
      | _, _ => none
  | _ => none

/-- Per-createEvent-call environment: the Supabase configuration snapshot
    and the network outcome the call would meet, by event index. -/
abbrev NetOracle := ℕ → SupabaseConfig × HttpOutcome

structure ManualEvent where
  date : Str
  time : Str
  created : Bool
deriving DecidableEq, Repr

/-- One manual event inspected by _check_manual_events: skipped when its
    created flag is already set; otherwise, when its date is today and its
    parsed time matches the current hour and minute, createEvent runs and a
    success sets created = True. -/
def manualStep (now : SchedNow) (net : NetOracle) (i : ℕ) (e : ManualEvent) :
    ManualEvent × List (ℕ × CueResult) :=
  if e.created then (e, [])
  else if e.date = now.dateStr then
    match parseHM e.time with
    | none => (e, [])
    | some (h, m) =>
        if now.hour = h ∧ now.minute = m then
          if (create_event_in_supabase (net i).1 e.date (net i).2).1.isSuccess then
            ({ e with created := true },
              [(i, (create_event_in_supabase (net i).1 e.date (net i).2).1)])
          else (e, [(i, (create_event_in_supabase (net i).1 e.date (net i).2).1)])
        else (e, [])
  else (e, [])

/-- The loop of _check_manual_events over the list, with the index of the
    first element given. -/
def manualLoop (now : SchedNow) (net : NetOracle) :
    ℕ → List ManualEvent → List ManualEvent × List (ℕ × CueResult)
  | _, [] => ([], [])
  | i, e :: rest =>
      let p := manualStep now net i e
      let r := manualLoop now net (i + 1) rest
      (p.1 :: r.1, p.2 ++ r.2)

/-- redirect_state.py _check_manual_events: one scheduler tick over the
    manual events.  The returned list is the one persisted at the end of
    the tick (the save runs inside the lock whenever a flag changed, and
    leaves the document identical when nothing changed). -/
def check_manual_events (now : SchedNow) (net : NetOracle)
    (events : List ManualEvent) : List ManualEvent × List (ℕ × CueResult) :=
  manualLoop now net 0 events

/-- A whole run of manual-event ticks: each tick consumes the list the
    previous tick persisted.  Because the created flags live in the
    persisted document, a process restart between ticks re-reads exactly
    the list the previous tick left, so runs with restarts are the same
    traces. -/
def runManualTicks :
    List ManualEvent → List (SchedNow × NetOracle) →
    List ManualEvent × List (ℕ × CueResult)
  | evs, [] => (evs, [])
  | evs, t :: ts =>
      let r := check_manual_events t.1 t.2 evs
      let rest := runManualTicks r.1 ts
      (rest.1, r.2 ++ rest.2)

/-- Number of createEvent calls a manual-event trace performed for the
    event at index i. -/
def callsAt (i : ℕ) (calls : List (ℕ × CueResult)) : ℕ :=
  calls.countP (fun c => c.1 == i)

/-- Number of successful createEvent calls for the event at index i. -/
def succAt (i : ℕ) (calls : List (ℕ × CueResult)) : ℕ :=
  calls.countP (fun c => c.1 == i && c.2.isSuccess)

structure RecurringEvent where
  day : Str
  time : Str
  enabled : Bool
deriving DecidableEq, Repr

/-- One recurring event inspected by _check_scheduled_events: skipped when
    disabled; on the matching weekday, when the parsed time equals the
    current hour and minute and the dedup key (today's date, an
    underscore, and the raw time string) is not in the fired set,
    createEvent runs and only a success records the key. -/
def scheduledStep (now : SchedNow) (net : NetOracle) (i : ℕ) (fired : List Str)
    (e : RecurringEvent) : List Str × List (Str × CueResult) :=
  if e.enabled then
    if pyLower e.day = now.weekday then
      match parseHM e.time with
      | none => (fired, [])
      | some (h, m) =>
          if now.hour = h ∧ now.minute = m then
            if (now.dateStr ++ ('_' :: e.time)) ∈ fired then (fired, [])
            else
              let r := create_event_in_supabase (net i).1 now.dateStr (net i).2
              if r.1.isSuccess then
                (fired ++ [now.dateStr ++ ('_' :: e.time)],
                 [(now.dateStr ++ ('_' :: e.time), r.1)])
              else (fired, [(now.dateStr ++ ('_' :: e.time), r.1)])
          else (fired, [])
    else (fired, [])
  else (fired, [])

/-- The loop of _check_scheduled_events, threading the fired set. -/
def scheduledLoop (now : SchedNow) (net : NetOracle) :
    ℕ → List Str → List RecurringEvent → List Str × List (Str × CueResult)
  | _, fired, [] => (fired, [])
  | i, fired, e :: rest =>
      let p := scheduledStep now net i fired e
      let r := scheduledLoop now net (i + 1) p.1 rest
      (r.1, p.2 ++ r.2)

/-- redirect_state.py _check_scheduled_events: one scheduler tick over the
    recurring events, returning the in-memory fired set it leaves behind
    and the createEvent calls it performed.  After the loop, every tick
    whose clock reads hour 0 minute 0 clears the whole fired set (the
    midnight cleanup). -/
def check_scheduled_events (now : SchedNow) (net : NetOracle)
    (events : List RecurringEvent) (fired : List Str) :
    List Str × List (Str × CueResult) :=
  let r := scheduledLoop now net 0 fired events
  (if now.hour = 0 ∧ now.minute = 0 then [] else r.1, r.2)

/-- A whole run of recurring-event ticks against a fixed event list,
    threading the in-memory fired set. -/
def runScheduledTicks (events : List RecurringEvent) :
    List Str → List (SchedNow × NetOracle) → List Str × List (Str × CueResult)
  | fired, [] => (fired, [])
  | fired, t :: ts =>
      let r := check_scheduled_events t.1 t.2 events fired
      let rest := runScheduledTicks events r.1 ts
      (rest.1, r.2 ++ rest.2)

/-- Number of successful createEvent calls a recurring-event trace
    performed under the dedup key k. -/
def succAtKey (k : Str) (calls : List (Str × CueResult)) : ℕ :=
  calls.countP (fun c => c.1 == k && c.2.isSuccess)

/-- The key substitution rename_preset applies to one stored pair. -/
def substEntry (old nw : Str) (x : Str × PresetData) : Str × PresetData :=
  (if x.1 = old then nw else x.1, x.2)

/-! ## Theorems -/

/-- C1: counterexample.  The claim quantifies over every state with
    expires_at set, but the source tests the stored value for truthiness,
    so a state whose expiry timestamp is exactly 0 never reverts: read at
    wall-clock time 1 (strictly past the expiry 0), get_current_url
    returns the unexpired current_url and leaves expires_at in place,
    where the claim demands default_url with expires_at cleared. -/
theorem C1_counterexample :
    get_current_url 1
        { default_url := [ 'd' ], current_url := [ 'c' ], expires_at := some 0 } =
      ([ 'c' ],
        { default_url := [ 'd' ], current_url := [ 'c' ], expires_at := some 0 }) ∧
    (1 : ℚ) > 0 ∧ ([ 'c' ] : Str) ≠ [ 'd' ] := by
  refine ⟨?_, by norm_num, by decide⟩
  simp [get_current_url]

/-- C1 (amended): for every state whose expires_at is set to a nonzero
    timestamp e, a get_current_url call at wall-clock time now > e reverts
    current_url to default_url, clears expires_at, persists, and returns
    default_url, and a second call afterwards (at any time) again returns
    default_url with expires_at still cleared; after set_temp_url(u, 0) at
    a positive wall-clock time, any strictly later read reverts; and when
    expires_at is absent, zero, or not yet passed, get_current_url returns
    current_url and changes nothing. -/
theorem C1_lazy_expiry :
    (∀ (s : RedirectConfig) (e now now2 : ℚ),
        s.expires_at = some e → e ≠ 0 → now > e →
        get_current_url now s =
          (s.default_url, { s with current_url := s.default_url, expires_at := none }) ∧
        get_current_url now2 { s with current_url := s.default_url, expires_at := none } =
          (s.default_url, { s with current_url := s.default_url, expires_at := none })) ∧
    (∀ (s : RedirectConfig) (u : Str) (t tr : ℚ), 0 < t → t < tr →
        get_current_url tr (set_temp_url t u 0 s) =
          (s.default_url, { s with current_url := s.default_url, expires_at := none })) ∧
    (∀ (s : RedirectConfig) (now : ℚ),
        (s.expires_at = none ∨ s.expires_at = some 0 ∨
          (∃ e, s.expires_at = some e ∧ now ≤ e)) →
        get_current_url now s = (s.current_url, s)) := by
  refine ⟨?_, ?_, ?_⟩
  · intro s e now now2 hs he hn
    refine ⟨?_, ?_⟩
    · simp [get_current_url, hs, he, hn]
    · simp [get_current_url]
  · intro s u t tr ht htr
    have hz : t + ((0 : ℤ) : ℚ) = t := by push_cast; ring
    simp only [get_current_url, set_temp_url, hz]
    rw [if_pos ⟨ne_of_gt ht, htr⟩]
  · intro s now h
    rcases h with h | h | ⟨e, he, hle⟩
    · simp [get_current_url, h]
    · simp [get_current_url, h]
    · simp only [get_current_url, he]
      rw [if_neg]
      rintro ⟨-, h2⟩
      exact absurd h2 (not_lt.mpr hle)

/-- C1 witness: the amended theorem applied at a concrete expired state. -/
theorem C1_lazy_expiry_witness :
    get_current_url 3
        { default_url := [ 'd' ], current_url := [ 'c' ], expires_at := some 2 } =
      ([ 'd' ], { default_url := [ 'd' ], current_url := [ 'd' ], expires_at := none }) :=
  (C1_lazy_expiry.1
    { default_url := [ 'd' ], current_url := [ 'c' ], expires_at := some 2 }
    2 3 3 rfl (by norm_num) (by norm_num)).1

theorem charOfNat_toNat {n : ℕ} (h : n < 55296) : (Char.ofNat n).toNat = n := by
  have hv : n.isValidChar := Or.inl h
  simp [Char.ofNat, Char.toNat, hv, Char.ofNatAux, UInt32.toNat, BitVec.toNat_ofNatLt]

theorem lowerChar_ne_dash {c : Char} (h : c ≠ '-') : lowerChar c ≠ '-' := by
  unfold lowerChar
  split
  · rename_i hr
    intro he
    have h1 : (Char.ofNat (c.toNat + 32)).toNat = c.toNat + 32 :=
      charOfNat_toNat (by omega)
    rw [he] at h1
    have h2 : ('-').toNat = 45 := by decide
    omega
  · exact h

theorem dash_not_mem_normalizeName (q : Str) : '-' ∉ normalizeName q := by
  intro hmem
  simp only [normalizeName, pyLower, List.map_map, List.mem_map] at hmem
  obtain ⟨c, -, hc⟩ := hmem
  simp only [Function.comp_apply] at hc
  by_cases hcd : c = '-'
  · subst hcd
    simp only [dashToSpace, if_pos rfl] at hc
    exact absurd hc (by decide)
  · have hd : dashToSpace c ≠ '-' := by
      unfold dashToSpace
      split
      · decide
      · exact hcd
    exact lowerChar_ne_dash hd hc

theorem mem_dash_pyLower {s : Str} (h : '-' ∈ s) : '-' ∈ pyLower s := by
  simp only [pyLower, List.mem_map]
  exact ⟨'-', h, by decide⟩

theorem getPresetLoop_some (norm : Str) :
    ∀ (l : Registry) (r : Str × PresetData),
      getPresetLoop norm l = some r ↔
        ∃ l₁ l₂, l = l₁ ++ r :: l₂ ∧ pyLower r.1 = norm ∧
          ∀ x ∈ l₁, pyLower x.1 ≠ norm := by
  intro l
  induction l with
  | nil =>
      intro r
      simp only [getPresetLoop]
      constructor
      · intro h; cases h
      · rintro ⟨l₁, l₂, h, -, -⟩
        exact absurd h (by simp)
  | cons e rest ih =>
      intro r
      obtain ⟨k, v⟩ := e
      simp only [getPresetLoop]
      split
      · rename_i hk
        constructor
        · intro h
          cases h
          exact ⟨[], rest, by simp, hk, by simp⟩
        · rintro ⟨l₁, l₂, hdec, hr, hfirst⟩
          cases l₁ with
          | nil =>
              simp only [List.nil_append, List.cons.injEq] at hdec
              simp [hdec.1]
          | cons a l₁ =>
              simp only [List.cons_append, List.cons.injEq] at hdec
              have h2 : pyLower a.1 ≠ norm := hfirst a (List.mem_cons_self a l₁)
              rw [← hdec.1] at h2
              exact absurd hk h2
      · rename_i hk
        rw [ih r]
        constructor
        · rintro ⟨l₁, l₂, hdec, hr, hfirst⟩
          refine ⟨(k, v) :: l₁, l₂, by simp [hdec], hr, ?_⟩
          intro x hx
          rcases List.mem_cons.mp hx with h | h
          · subst h; exact hk
          · exact hfirst x h
        · rintro ⟨l₁, l₂, hdec, hr, hfirst⟩
          cases l₁ with
          | nil =>
              simp only [List.nil_append, List.cons.injEq] at hdec
              rw [← hdec.1] at hr
              exact absurd hr hk
          | cons a l₁ =>
              simp only [List.cons_append, List.cons.injEq] at hdec
              exact ⟨l₁, l₂, hdec.2, hr, fun x hx => hfirst x (by simp [hx])⟩

theorem getPresetLoop_none (norm : Str) :
    ∀ l : Registry, getPresetLoop norm l = none ↔ ∀ x ∈ l, pyLower x.1 ≠ norm := by
  intro l
  induction l with
  | nil => simp [getPresetLoop]
  | cons e rest ih =>
      obtain ⟨k, v⟩ := e
      simp only [getPresetLoop]
      split
      · rename_i hk
        simp only [List.mem_cons]
        constructor
        · intro h; cases h
        · intro h
          exact absurd hk (h (k, v) (Or.inl rfl))
      · rename_i hk
        rw [ih]
        constructor
        · intro h x hx
          rcases List.mem_cons.mp hx with h1 | h1
          · subst h1; exact hk
          · exact h x h1
        · intro h x hx
          exact h x (by simp [hx])

/-- C7: get_preset normalizes the queried name by replacing every dash
    with a space and lower-casing, then linearly scans the registry and
    returns the first stored pair whose lower-cased stored name equals the
    normalized query (the stored name in its original casing, with its
    data), or None when no stored name matches; in particular a stored
    preset named Giving Tuesday is found both under Giving Tuesday and
    under giving-tuesday. -/
theorem C7_lookup_normalization :
    (∀ (reg : Registry) (name : Str) (r : Str × PresetData),
        get_preset reg name = some r ↔
          ∃ l₁ l₂, reg = l₁ ++ r :: l₂ ∧ pyLower r.1 = normalizeName name ∧
            ∀ x ∈ l₁, pyLower x.1 ≠ normalizeName name) ∧
    (∀ (reg : Registry) (name : Str),
        get_preset reg name = none ↔ ∀ x ∈ reg, pyLower x.1 ≠ normalizeName name) ∧
    (get_preset [(("Giving Tuesday").toList, { url := ("u").toList, cue := none })]
        (("Giving Tuesday").toList) =
      some (("Giving Tuesday").toList, { url := ("u").toList, cue := none }) ∧
     get_preset [(("Giving Tuesday").toList, { url := ("u").toList, cue := none })]
        (("giving-tuesday").toList) =
      some (("Giving Tuesday").toList, { url := ("u").toList, cue := none })) := by
  refine ⟨?_, ?_, by decide⟩
  · intro reg name r
    exact getPresetLoop_some (normalizeName name) reg r
  · intro reg name
    exact getPresetLoop_none (normalizeName name) reg

/-- C7 witness: the first-match characterization applied at a concrete
    registry and query. -/
theorem C7_lookup_normalization_witness :
    ∃ l₁ l₂,
      ([(("A").toList, ({ url := ("u").toList, cue := none } : PresetData))] :
          Registry) =
        l₁ ++ (("A").toList, ({ url := ("u").toList, cue := none } : PresetData)) :: l₂ ∧
      pyLower (("A").toList, ({ url := ("u").toList, cue := none } : PresetData)).1 =
        normalizeName ("a").toList ∧
      ∀ x ∈ l₁, pyLower x.1 ≠ normalizeName ("a").toList :=
  (C7_lookup_normalization.1
      [(("A").toList, { url := ("u").toList, cue := none })] (("a").toList)
      (("A").toList, { url := ("u").toList, cue := none })).mp (by decide)

/-- C9: a stored preset whose name contains a dash is unreachable:
    whatever pair get_preset returns has a dash-free stored name (the
    normalized query never contains a dash, while a stored dash survives
    lower-casing), and in particular a registry holding only the preset
    a-b answers None even to the exact query a-b. -/
theorem C9_dashed_names_unreachable :
    (∀ (reg : Registry) (q : Str) (r : Str × PresetData),
        get_preset reg q = some r → '-' ∉ r.1) ∧
    (∀ d : PresetData,
        get_preset [(("a-b").toList, d)] (("a-b").toList) = none) := by
  constructor
  · intro reg q r h hdash
    obtain ⟨l₁, l₂, -, hmatch, -⟩ :=
      (getPresetLoop_some (normalizeName q) reg r).mp h
    have h1 : '-' ∈ normalizeName q := hmatch ▸ mem_dash_pyLower hdash
    exact dash_not_mem_normalizeName q h1
  · intro d
    simp only [get_preset, getPresetLoop]
    rw [if_neg (by decide)]

/-- C9 witness: the returned pair of a successful lookup has a dash-free
    name. -/
theorem C9_dashed_names_unreachable_witness :
    '-' ∉ (("ab").toList : Str) :=
  C9_dashed_names_unreachable.1
    [(("ab").toList, { url := ("u").toList, cue := none })] (("ab").toList)
    (("ab").toList, { url := ("u").toList, cue := none }) (by decide)

theorem regKeys_cons {V : Type} (e : Str × V) (l : List (Str × V)) :
    regKeys (e :: l) = e.1 :: regKeys l := rfl

theorem regKeys_append {V : Type} (l₁ l₂ : List (Str × V)) :
    regKeys (l₁ ++ l₂) = regKeys l₁ ++ regKeys l₂ := List.map_append _ _ _

theorem dictInsert_of_not_mem {V : Type} {l : List (Str × V)} {k : Str} (v : V)
    (h : k ∉ regKeys l) : dictInsert l k v = l ++ [(k, v)] := by
  induction l with
  | nil => rfl
  | cons e rest ih =>
      obtain ⟨k0, v0⟩ := e
      simp only [regKeys_cons, List.mem_cons] at h
      push_neg at h
      have hne : ¬ (k0 = k) := fun he => h.1 he.symm
      simp only [dictInsert, if_neg hne, List.cons_append]
      rw [ih h.2]

theorem regKeys_dictInsert_mem {V : Type} {l : List (Str × V)} {k : Str} (v : V)
    (h : k ∈ regKeys l) : regKeys (dictInsert l k v) = regKeys l := by
  induction l with
  | nil => simp [regKeys] at h
  | cons e rest ih =>
      obtain ⟨k0, v0⟩ := e
      by_cases hk : k0 = k
      · simp [dictInsert, if_pos hk, regKeys_cons]
      · simp only [regKeys_cons, List.mem_cons] at h
        rcases h with h | h
        · exact absurd h.symm hk
        · simp [dictInsert, if_neg hk, regKeys_cons, ih h]

theorem nodup_dictInsert {V : Type} {l : List (Str × V)} (k : Str) (v : V)
    (h : NodupKeys l) : NodupKeys (dictInsert l k v) := by
  by_cases hm : k ∈ regKeys l
  · unfold NodupKeys
    rw [regKeys_dictInsert_mem v hm]
    exact h
  · unfold NodupKeys
    rw [dictInsert_of_not_mem v hm, regKeys_append]
    simp only [List.nodup_append]
    refine ⟨h, List.nodup_singleton _, ?_⟩
    intro a ha hb
    simp only [regKeys, List.map_cons, List.map_nil, List.mem_singleton] at hb
    subst hb
    exact hm ha

theorem dictInsert_update {V : Type} {l₁ : List (Str × V)} (l₂ : List (Str × V))
    {k : Str} (w v : V) (h : k ∉ regKeys l₁) :
    dictInsert (l₁ ++ (k, w) :: l₂) k v = l₁ ++ (k, v) :: l₂ := by
  induction l₁ with
  | nil => simp [dictInsert]
  | cons e rest ih =>
      obtain ⟨k0, v0⟩ := e
      simp only [regKeys_cons, List.mem_cons] at h
      push_neg at h
      have hne : ¬ (k0 = k) := fun he => h.1 he.symm
      show ((if k0 = k then (k0, v) :: (rest ++ (k, w) :: l₂)
          else (k0, v0) :: dictInsert (rest ++ (k, w) :: l₂) k v) : List (Str × V)) = _
      rw [if_neg hne, ih h.2]
      simp

theorem renameLoop_append (old nw : Str) (xs : Registry) :
    ∀ (acc : Registry) (ys : Registry),
      renameLoop old nw acc (xs ++ ys) = renameLoop old nw (renameLoop old nw acc xs) ys := by
  induction xs with
  | nil => intro acc ys; rfl
  | cons e rest ih =>
      intro acc ys
      obtain ⟨k, v⟩ := e
      simp only [List.cons_append, renameLoop]
      exact ih _ ys

theorem nodup_renameLoop (old nw : Str) (l : Registry) :
    ∀ acc : Registry, NodupKeys acc → NodupKeys (renameLoop old nw acc l) := by
  induction l with
  | nil => intro acc h; exact h
  | cons e rest ih =>
      intro acc h
      obtain ⟨k, v⟩ := e
      simp only [renameLoop]
      exact ih _ (nodup_dictInsert _ _ h)

theorem renameLoop_fresh (old nw : Str) (l : Registry) :
    ∀ acc : Registry,
      (∀ x ∈ l, (substEntry old nw x).1 ∉ regKeys acc) →
      NodupKeys (l.map (substEntry old nw)) →
      renameLoop old nw acc l = acc ++ l.map (substEntry old nw) := by
  induction l with
  | nil => intro acc _ _; simp [renameLoop]
  | cons e rest ih =>
      intro acc hfresh hnd
      obtain ⟨k, v⟩ := e
      have hsub : substEntry old nw (k, v) = (if k = old then nw else k, v) := rfl
      simp only [renameLoop]
      have h1 : dictInsert acc (if k = old then nw else k) v =
          acc ++ [(if k = old then nw else k, v)] :=
        dictInsert_of_not_mem v (by
          have := hfresh (k, v) (List.mem_cons_self _ _)
          simpa [substEntry] using this)
      rw [h1]
      simp only [List.map_cons, hsub] at hnd ⊢
      have hnd2 : NodupKeys (rest.map (substEntry old nw)) := by
        have := hnd
        unfold NodupKeys at this ⊢
        simp only [regKeys_cons, List.nodup_cons] at this
        exact this.2
      have hhead : (if k = old then nw else k) ∉ regKeys (rest.map (substEntry old nw)) := by
        have := hnd
        unfold NodupKeys at this
        simp only [regKeys_cons, List.nodup_cons] at this
        exact this.1
      rw [ih (acc ++ [(if k = old then nw else k, v)]) ?hf hnd2]
      · simp
      · intro x hx
        rw [regKeys_append]
        simp only [List.mem_append]
        rintro (hmem | hmem)
        · exact hfresh x (List.mem_cons_of_mem _ hx) hmem
        · simp only [regKeys, List.map_cons, List.map_nil, List.mem_singleton] at hmem
          apply hhead
          rw [← hmem]
          simp only [regKeys, List.map_map, List.mem_map]
          exact ⟨x, hx, rfl⟩



theorem map_subst_id (old nw : Str) {l : Registry} (h : ∀ x ∈ l, x.1 ≠ old) :
    l.map (substEntry old nw) = l := by
  induction l with
  | nil => rfl
  | cons e rest ih =>
      simp only [List.map_cons]
      rw [ih (fun x hx => h x (List.mem_cons_of_mem _ hx))]
      have he : substEntry old nw e = e := by
        unfold substEntry
        rw [if_neg (h e (List.mem_cons_self _ _))]
      simp [he]

theorem renameLoop_skip (old nw : Str) (l : Registry) :
    ∀ acc : Registry,
      (∀ x ∈ l, x.1 ≠ old) →
      (∀ x ∈ l, x.1 ∉ regKeys acc) →
      NodupKeys l →
      renameLoop old nw acc l = acc ++ l := by
  intro acc hold hacc hnd
  have h1 : ∀ x ∈ l, (substEntry old nw x).1 ∉ regKeys acc := by
    intro x hx
    have hfst : (substEntry old nw x).1 = x.1 := by
      unfold substEntry
      simp [if_neg (hold x hx)]
    rw [hfst]
    exact hacc x hx
  have h2 : NodupKeys (l.map (substEntry old nw)) := by
    rw [map_subst_id old nw hold]
    exact hnd
  rw [renameLoop_fresh old nw l acc h1 h2, map_subst_id old nw hold]

theorem renameLoop_cons (old nw k : Str) (v : PresetData) (acc rest : Registry) :
    renameLoop old nw acc ((k, v) :: rest) =
      renameLoop old nw (dictInsert acc (if k = old then nw else k) v) rest := rfl

theorem renameLoop_collision_first (l₁ l₂ l₃ : Registry) (old nw : Str)
    (vo vn : PresetData) (hne : old ≠ nw)
    (hnd : NodupKeys (l₁ ++ (old, vo) :: l₂ ++ (nw, vn) :: l₃)) :
    renameLoop old nw [] (l₁ ++ (old, vo) :: l₂ ++ (nw, vn) :: l₃) =
      l₁ ++ (nw, vn) :: l₂ ++ l₃ := by
  simp only [NodupKeys, regKeys, List.map_append, List.map_cons,
    List.nodup_append, List.nodup_cons, List.mem_append, List.mem_cons,
    List.Disjoint] at hnd
  obtain ⟨⟨hK1nd, ⟨hoK2, hK2nd⟩, hdisj1⟩, ⟨hnwK3, hK3nd⟩, hdisj2⟩ := hnd
  have holdK1 : ∀ x ∈ l₁, x.1 ≠ old := by
    intro x hx he
    exact hdisj1 (List.mem_map_of_mem Prod.fst hx) (Or.inl he)
  have hnwK1 : nw ∉ List.map Prod.fst l₁ := by
    intro hmem
    exact hdisj2 (Or.inl hmem) (Or.inl rfl)
  have hnwK2 : nw ∉ List.map Prod.fst l₂ := by
    intro hmem
    exact hdisj2 (Or.inr (Or.inr hmem)) (Or.inl rfl)
  rw [renameLoop_append, renameLoop_append]
  rw [renameLoop_skip old nw l₁ [] holdK1 (by simp [regKeys]) hK1nd]
  simp only [List.nil_append]
  rw [renameLoop_cons old nw old vo l₁ l₂, if_pos rfl]
  rw [dictInsert_of_not_mem vo hnwK1]
  rw [renameLoop_skip old nw l₂ (l₁ ++ [(nw, vo)])
    (fun x hx he => hoK2 (he ▸ List.mem_map_of_mem Prod.fst hx))
    (by
      intro x hx
      rw [regKeys_append]
      simp only [List.mem_append, regKeys, List.map_cons, List.map_nil,
        List.mem_singleton]
      rintro (hmem | hmem)
      · exact hdisj1 hmem (Or.inr (List.mem_map_of_mem Prod.fst hx))
      · exact hnwK2 (hmem ▸ List.mem_map_of_mem Prod.fst hx))
    hK2nd]
  rw [renameLoop_cons old nw nw vn _ l₃]
  rw [if_neg (fun he => hne he.symm)]
  rw [List.append_assoc l₁ [(nw, vo)] l₂, List.singleton_append,
    dictInsert_update l₂ vo vn hnwK1]
  rw [renameLoop_skip old nw l₃ (l₁ ++ (nw, vn) :: l₂)
    (fun x hx he =>
      hdisj2 (Or.inr (Or.inl rfl)) (Or.inr (he ▸ List.mem_map_of_mem Prod.fst hx)))
    (by
      intro x hx
      rw [regKeys_append]
      simp only [List.mem_append, regKeys_cons, List.mem_cons]
      rintro (hmem | hmem | hmem)
      · exact hdisj2 (Or.inl hmem) (Or.inr (List.mem_map_of_mem Prod.fst hx))
      · exact hnwK3 (hmem ▸ List.mem_map_of_mem Prod.fst hx)
      · exact hdisj2 (Or.inr (Or.inr hmem))
          (Or.inr (List.mem_map_of_mem Prod.fst hx)))
    hK3nd]

theorem renameLoop_collision_second (l₁ l₂ l₃ : Registry) (old nw : Str)
    (vn vo : PresetData) (hne : old ≠ nw)
    (hnd : NodupKeys (l₁ ++ (nw, vn) :: l₂ ++ (old, vo) :: l₃)) :
    renameLoop old nw [] (l₁ ++ (nw, vn) :: l₂ ++ (old, vo) :: l₃) =
      l₁ ++ (nw, vo) :: l₂ ++ l₃ := by
  simp only [NodupKeys, regKeys, List.map_append, List.map_cons,
    List.nodup_append, List.nodup_cons, List.mem_append, List.mem_cons,
    List.Disjoint] at hnd
  obtain ⟨⟨hK1nd, ⟨hnwK2, hK2nd⟩, hdisj1⟩, ⟨holdK3, hK3nd⟩, hdisj2⟩ := hnd
  have hnwK1 : nw ∉ List.map Prod.fst l₁ := by
    intro hmem
    exact hdisj1 hmem (Or.inl rfl)
  rw [renameLoop_append, renameLoop_append]
  rw [renameLoop_skip old nw l₁ []
    (fun x hx he => hdisj2 (Or.inl (List.mem_map_of_mem Prod.fst hx)) (Or.inl he))
    (by simp [regKeys]) hK1nd]
  simp only [List.nil_append]
  rw [renameLoop_cons old nw nw vn l₁ l₂]
  rw [if_neg (fun he => hne he.symm)]
  rw [dictInsert_of_not_mem vn hnwK1]
  rw [renameLoop_skip old nw l₂ (l₁ ++ [(nw, vn)])
    (fun x hx he =>
      hdisj2 (Or.inr (Or.inr (List.mem_map_of_mem Prod.fst hx))) (Or.inl he))
    (by
      intro x hx
      rw [regKeys_append]
      simp only [List.mem_append, regKeys, List.map_cons, List.map_nil,
        List.mem_singleton]
      rintro (hmem | hmem)
      · exact hdisj1 hmem (Or.inr (List.mem_map_of_mem Prod.fst hx))
      · exact hnwK2 (hmem ▸ List.mem_map_of_mem Prod.fst hx))
    hK2nd]
  rw [renameLoop_cons old nw old vo _ l₃, if_pos rfl]
  rw [List.append_assoc l₁ [(nw, vn)] l₂, List.singleton_append,
    dictInsert_update l₂ vn vo hnwK1]
  rw [renameLoop_skip old nw l₃ (l₁ ++ (nw, vo) :: l₂)
    (fun x hx he => holdK3 (he ▸ List.mem_map_of_mem Prod.fst hx))
    (by
      intro x hx
      rw [regKeys_append]
      simp only [List.mem_append, regKeys_cons, List.mem_cons]
      rintro (hmem | hmem | hmem)
      · exact hdisj2 (Or.inl hmem) (Or.inr (List.mem_map_of_mem Prod.fst hx))
      · exact hdisj2 (Or.inr (Or.inl rfl))
          (Or.inr (hmem ▸ List.mem_map_of_mem Prod.fst hx))
      · exact hdisj2 (Or.inr (Or.inr hmem))
          (Or.inr (List.mem_map_of_mem Prod.fst hx)))
    hK3nd]

theorem regKeys_map_subst (old nw : Str) (reg : Registry) :
    regKeys (reg.map (substEntry old nw)) =
      (regKeys reg).map (fun key => if key = old then nw else key) := by
  induction reg with
  | nil => rfl
  | cons e rest ih =>
      simp only [List.map_cons, regKeys_cons, ih]
      rfl

theorem nodup_map_subst (old nw : Str) (reg : Registry) (hnd : NodupKeys reg)
    (hfree : nw = old ∨ nw ∉ regKeys reg) :
    NodupKeys (reg.map (substEntry old nw)) := by
  unfold NodupKeys
  rw [regKeys_map_subst]
  apply List.Nodup.map_on ?inj hnd
  intro x hx y hy hxy
  by_cases h1 : x = old <;> by_cases h2 : y = old
  · rw [h1, h2]
  · rw [if_pos h1, if_neg h2] at hxy
    rcases hfree with hf | hf
    · exact absurd (hxy ▸ hf.symm).symm h2
    · exact absurd (hxy ▸ hy) hf
  · rw [if_neg h1, if_pos h2] at hxy
    rcases hfree with hf | hf
    · exact absurd (hxy.symm ▸ hf.symm).symm h1
    · exact absurd (hxy ▸ hx) hf
  · rw [if_neg h1, if_neg h2] at hxy
    exact hxy

theorem nodup_applyOp {reg : Registry} (op : PresetOp) (h : NodupKeys reg) :
    NodupKeys (applyOp reg op) := by
  cases op with
  | upsert name url cue => exact nodup_dictInsert name _ h
  | rename old nw =>
      simp only [applyOp, rename_preset]
      split
      · exact nodup_renameLoop old nw reg [] (by simp [NodupKeys, regKeys])
      · exact h

/-- C4 (amended): the registry enforces uniqueness of exact names only.
    Starting from any registry whose stored names are pairwise distinct
    strings, every sequence of upsert and rename operations preserves that
    exact-name distinctness (a Python dict cannot hold two identical
    keys); case-insensitive dash-normalized uniqueness is not enforced
    anywhere, as the counterexample shows. -/
theorem C4_exact_uniqueness :
    ∀ (ops : List PresetOp) (reg : Registry),
      NodupKeys reg → NodupKeys (applyOps reg ops) := by
  intro ops
  induction ops with
  | nil => intro reg h; exact h
  | cons op rest ih =>
      intro reg h
      exact ih (applyOp reg op) (nodup_applyOp op h)

/-- C6 (amended): rename_preset of an absent old name returns false and
    leaves the registry untouched; when old is present and the new name
    does not collide with a different existing entry (it is either equal
    to old or absent from the registry), rename returns true and the
    result is exactly the old registry with the key of the old entry
    replaced in place, all entries and their order preserved.  When new
    collides with a different existing entry the output shrinks, as the
    counterexample shows. -/
theorem C6_rename_spec :
    (∀ (reg : Registry) (old nw : Str),
        old ∉ regKeys reg → rename_preset reg old nw = (false, reg)) ∧
    (∀ (reg : Registry) (old nw : Str),
        NodupKeys reg → old ∈ regKeys reg → (nw = old ∨ nw ∉ regKeys reg) →
        rename_preset reg old nw = (true, reg.map (substEntry old nw))) := by
  constructor
  · intro reg old nw h
    simp only [rename_preset, if_neg h]
  · intro reg old nw hnd hmem hfree
    simp only [rename_preset, if_pos hmem]
    rw [renameLoop_fresh old nw reg [] (by simp [regKeys])
      (nodup_map_subst old nw reg hnd hfree)]
    simp

/-- C10 (amended): renaming old to new when both are present as distinct
    keys returns true and shrinks the registry by one entry; the surviving
    entry is keyed new, sits at the position of whichever of the two
    entries came first in the order, and carries the value of whichever
    came second (the later dict assignment wins).  In particular, only
    when old precedes new does the result match the original claim shape
    of new at the position of old carrying the value previously stored
    under new; when new precedes old the surviving entry keeps the
    position of new and takes the renamed entry value, as the
    counterexample shows. -/
theorem C10_rename_collision :
    ∀ (l₁ l₂ l₃ : Registry) (old nw : Str) (vo vn : PresetData), old ≠ nw →
      (NodupKeys (l₁ ++ (old, vo) :: l₂ ++ (nw, vn) :: l₃) →
        rename_preset (l₁ ++ (old, vo) :: l₂ ++ (nw, vn) :: l₃) old nw =
          (true, l₁ ++ (nw, vn) :: l₂ ++ l₃) ∧
        (l₁ ++ (nw, vn) :: l₂ ++ l₃).length + 1 =
          (l₁ ++ (old, vo) :: l₂ ++ (nw, vn) :: l₃).length) ∧
      (NodupKeys (l₁ ++ (nw, vn) :: l₂ ++ (old, vo) :: l₃) →
        rename_preset (l₁ ++ (nw, vn) :: l₂ ++ (old, vo) :: l₃) old nw =
          (true, l₁ ++ (nw, vo) :: l₂ ++ l₃) ∧
        (l₁ ++ (nw, vo) :: l₂ ++ l₃).length + 1 =
          (l₁ ++ (nw, vn) :: l₂ ++ (old, vo) :: l₃).length) := by
  intro l₁ l₂ l₃ old nw vo vn hne
  constructor
  · intro hnd
    constructor
    · simp only [rename_preset]
      have hmem : old ∈ regKeys (l₁ ++ (old, vo) :: l₂ ++ (nw, vn) :: l₃) := by
        rw [regKeys_append, regKeys_append, regKeys_cons]
        exact List.mem_append_left _
          (List.mem_append_right _ (List.mem_cons_self _ _))
      rw [if_pos hmem]
      rw [renameLoop_collision_first l₁ l₂ l₃ old nw vo vn hne hnd]
    · simp only [List.length_append, List.length_cons]
      omega
  · intro hnd
    constructor
    · simp only [rename_preset]
      have hmem : old ∈ regKeys (l₁ ++ (nw, vn) :: l₂ ++ (old, vo) :: l₃) := by
        rw [regKeys_append, regKeys_cons]
        exact List.mem_append_right _ (List.mem_cons_self _ _)
      rw [if_pos hmem]
      rw [renameLoop_collision_second l₁ l₂ l₃ old nw vn vo hne hnd]
    · simp only [List.length_append, List.length_cons]
      omega

/-- C4: counterexample.  Two upserts whose names differ only in case
    produce a registry with two distinct entries whose names are equal
    under the dash-normalized case-folded comparison, so the claimed
    invariant does not hold for the code. -/
theorem C4_counterexample :
    applyOps [] [PresetOp.upsert (("Foo").toList) (("u1").toList) none,
                 PresetOp.upsert (("foo").toList) (("u2").toList) none] =
      [(("Foo").toList, { url := ("u1").toList, cue := none }),
       (("foo").toList, { url := ("u2").toList, cue := none })] ∧
    normalizeName (("Foo").toList) = normalizeName (("foo").toList) ∧
    (("Foo").toList : Str) ≠ ("foo").toList := by decide

/-- C4 witness: the amended invariant applied to a concrete history. -/
theorem C4_exact_uniqueness_witness :
    NodupKeys (applyOps []
      [PresetOp.upsert (("A").toList) (("u").toList) none,
       PresetOp.rename (("A").toList) (("B").toList)]) :=
  C4_exact_uniqueness
    [PresetOp.upsert (("A").toList) (("u").toList) none,
     PresetOp.rename (("A").toList) (("B").toList)] []
    (by simp [NodupKeys, regKeys])

/-- C6: counterexample.  Renaming A to B in the registry [A, B] returns
    true but collapses the two entries into one, not the claimed
    same-length registry with only the key substituted. -/
theorem C6_counterexample :
    rename_preset
      [(("A").toList, { url := ("1").toList, cue := none }),
       (("B").toList, { url := ("2").toList, cue := none })]
      (("A").toList) (("B").toList) =
      (true, [(("B").toList, { url := ("2").toList, cue := none })]) ∧
    [(("B").toList, ({ url := ("2").toList, cue := none } : PresetData))] ≠
      ([(("A").toList, { url := ("1").toList, cue := none }),
        (("B").toList, { url := ("2").toList, cue := none })] : Registry).map
        (substEntry (("A").toList) (("B").toList)) := by decide

/-- C6 witness: the amended rename characterization applied to a concrete
    registry with a fresh new name. -/
theorem C6_rename_spec_witness :
    rename_preset [(("A").toList, { url := ("1").toList, cue := none })]
        (("A").toList) (("B").toList) =
      (true, ([(("A").toList, { url := ("1").toList, cue := none })] : Registry).map
        (substEntry (("A").toList) (("B").toList))) :=
  C6_rename_spec.2 [(("A").toList, { url := ("1").toList, cue := none })]
    (("A").toList) (("B").toList)
    (by unfold NodupKeys; decide) (by decide) (Or.inr (by decide))

/-- C10: counterexample.  In the registry [A, B], renaming B to A (both
    present) returns true and shrinks to one entry, but the surviving
    entry carries the renamed entry value, not the value previously
    stored under the new name as the claim states. -/
theorem C10_counterexample :
    rename_preset
      [(("A").toList, { url := ("1").toList, cue := none }),
       (("B").toList, { url := ("2").toList, cue := none })]
      (("B").toList) (("A").toList) =
      (true, [(("A").toList, { url := ("2").toList, cue := none })]) ∧
    [(("A").toList, ({ url := ("2").toList, cue := none } : PresetData))] ≠
      [(("A").toList, { url := ("1").toList, cue := none })] := by decide

/-- C10 witness: the amended collision characterization applied to the
    concrete registry [B, A] with old = B preceding new = A. -/
theorem C10_rename_collision_witness :
    rename_preset
        ([] ++ (("B").toList, ({ url := ("2").toList, cue := none } : PresetData)) ::
          [] ++ (("A").toList, ({ url := ("1").toList, cue := none } : PresetData)) :: [])
        (("B").toList) (("A").toList) =
      (true, [] ++ (("A").toList, ({ url := ("1").toList, cue := none } : PresetData)) ::
        [] ++ ([] : Registry)) ∧
    ([] ++ (("A").toList, ({ url := ("1").toList, cue := none } : PresetData)) ::
      [] ++ ([] : Registry)).length + 1 =
    ([] ++ (("B").toList, ({ url := ("2").toList, cue := none } : PresetData)) ::
      [] ++ (("A").toList, ({ url := ("1").toList, cue := none } : PresetData)) :: []).length :=
  (C10_rename_collision [] [] [] (("B").toList) (("A").toList)
      ({ url := ("2").toList, cue := none }) ({ url := ("1").toList, cue := none })
      (by decide)).1 (by unfold NodupKeys; decide)

/-- C5: counterexample.  The claim says a negative seconds value is
    rejected before touching state, but api_temp only catches the
    ValueError of int(): seconds = -5 is accepted, current_url is
    overwritten and expires_at is set five seconds in the past. -/
theorem C5_counterexample :
    api_temp { url := some (("u").toList), seconds := some (PyVal.vint (-5)) }
        100 { default_url := [ 'd' ], current_url := [ 'd' ], expires_at := none } =
      (Except.ok { current_url := ("u").toList, expires_in := -5 },
        { default_url := [ 'd' ], current_url := ("u").toList,
          expires_at := some 95 }) ∧
    (-5 : ℤ) < 0 := by
  constructor
  · simp [api_temp, pyToInt, set_temp_url]
    norm_num
  · decide

/-- C5 (amended): api_temp rejects a missing or empty url and a missing
    seconds with a validation error, rejects a seconds value on which
    int() raises ValueError with a validation error, and aborts with an
    uncaught exception when int() raises TypeError, in every case leaving
    the state untouched; every value int() converts, including negative
    integers and floats truncated toward zero, is accepted and sets
    current_url to the url and expires_at to now plus the converted
    seconds. -/
theorem C5_temp_validation :
    (∀ (p : TempPayload) (now : ℚ) (s : RedirectConfig),
        (p.url = none ∨ p.url = some []) →
        api_temp p now s = (.error (.badRequest (("Missing url").toList)), s)) ∧
    (∀ (p : TempPayload) (now : ℚ) (s : RedirectConfig) (u : Str),
        p.url = some u → u ≠ [] → p.seconds = none →
        api_temp p now s = (.error (.badRequest (("Missing seconds").toList)), s)) ∧
    (∀ (p : TempPayload) (now : ℚ) (s : RedirectConfig) (u : Str) (sv : PyVal),
        p.url = some u → u ≠ [] → p.seconds = some sv →
        pyToInt sv = .error .valueError →
        api_temp p now s =
          (.error (.badRequest (("seconds must be an integer").toList)), s)) ∧
    (∀ (p : TempPayload) (now : ℚ) (s : RedirectConfig) (u : Str) (sv : PyVal),
        p.url = some u → u ≠ [] → p.seconds = some sv →
        pyToInt sv = .error .typeError →
        api_temp p now s = (.error .uncaught, s)) ∧
    (∀ (p : TempPayload) (now : ℚ) (s : RedirectConfig) (u : Str) (sv : PyVal)
        (n : ℤ),
        p.url = some u → u ≠ [] → p.seconds = some sv → pyToInt sv = .ok n →
        api_temp p now s =
          (.ok { current_url := u, expires_in := n }, set_temp_url now u n s)) := by
  refine ⟨?_, ?_, ?_, ?_, ?_⟩
  · rintro ⟨pu, ps⟩ now s (h | h) <;>
      · simp only at h
        subst h
        simp [api_temp]
  · rintro ⟨pu, ps⟩ now s u hu hne hs
    simp only at hu hs
    subst hu
    subst hs
    simp [api_temp, hne]
  · rintro ⟨pu, ps⟩ now s u sv hu hne hs hv
    simp only at hu hs
    subst hu
    subst hs
    simp [api_temp, hne, hv]
  · rintro ⟨pu, ps⟩ now s u sv hu hne hs hv
    simp only at hu hs
    subst hu
    subst hs
    simp [api_temp, hne, hv]
  · rintro ⟨pu, ps⟩ now s u sv n hu hne hs hv
    simp only at hu hs
    subst hu
    subst hs
    simp [api_temp, hne, hv]

/-- C5 witness: the amended theorem applied at a concrete accepted call. -/
theorem C5_temp_validation_witness :
    api_temp { url := some (("u").toList), seconds := some (PyVal.vint 7) } 10
        { default_url := [ 'd' ], current_url := [ 'd' ], expires_at := none } =
      (Except.ok { current_url := ("u").toList, expires_in := 7 },
        set_temp_url 10 (("u").toList) 7
          { default_url := [ 'd' ], current_url := [ 'd' ], expires_at := none }) :=
  C5_temp_validation.2.2.2.2
    { url := some (("u").toList), seconds := some (PyVal.vint 7) } 10
    { default_url := [ 'd' ], current_url := [ 'd' ], expires_at := none }
    (("u").toList) (PyVal.vint 7) 7 rfl (by decide) rfl rfl

/-- C8: with an empty supabase_url or supabase_api_key, both publisher
    operations return an immediate failure result and perform no network
    request; when configured, each operation performs exactly one request
    and its result is a success exactly when the HTTP status is 200, 201
    or 204, otherwise a failure carrying the status and body or the
    transport error text.  Both operations are total functions into the
    result type, the embedding of the fact that no exception escapes
    their boundary. -/
theorem C8_cue_publisher_results :
    (∀ (cfg : SupabaseConfig) (eid pn : Str) (cd : Option CueData)
        (net : HttpOutcome),
        cfg.supabase_url = [] ∨ cfg.supabase_api_key = [] →
        post_cue_to_supabase cfg eid pn cd net =
          (.failure (("Supabase not configured").toList), none)) ∧
    (∀ (cfg : SupabaseConfig) (eid : Str) (net : HttpOutcome),
        cfg.supabase_url = [] ∨ cfg.supabase_api_key = [] →
        create_event_in_supabase cfg eid net =
          (.failure (("Supabase not configured").toList), none)) ∧
    (∀ (cfg : SupabaseConfig) (eid pn : Str) (cd : Option CueData)
        (st : ℕ) (body : Str),
        supabaseConfigured cfg = true →
        ((post_cue_to_supabase cfg eid pn cd (.response st body)).1.isSuccess = true ↔
          st = 200 ∨ st = 201 ∨ st = 204) ∧
        (post_cue_to_supabase cfg eid pn cd (.response st body)).2 =
          some (buildCuePayload eid pn cd)) ∧
    (∀ (cfg : SupabaseConfig) (eid pn : Str) (cd : Option CueData) (m : Str),
        supabaseConfigured cfg = true →
        post_cue_to_supabase cfg eid pn cd (.transportError m) =
          (.failure m, some (buildCuePayload eid pn cd))) ∧
    (∀ (cfg : SupabaseConfig) (eid : Str) (st : ℕ) (body : Str),
        supabaseConfigured cfg = true →
        ((create_event_in_supabase cfg eid (.response st body)).1.isSuccess = true ↔
          st = 200 ∨ st = 201 ∨ st = 204) ∧
        (create_event_in_supabase cfg eid (.response st body)).2 = some eid) ∧
    (∀ (cfg : SupabaseConfig) (eid : Str) (m : Str),
        supabaseConfigured cfg = true →
        create_event_in_supabase cfg eid (.transportError m) =
          (.failure m, some eid)) := by
  have hnc : ∀ cfg : SupabaseConfig,
      cfg.supabase_url = [] ∨ cfg.supabase_api_key = [] →
      supabaseConfigured cfg = false := by
    intro cfg h
    rcases h with h | h <;> simp [supabaseConfigured, h, List.isEmpty_iff]
  refine ⟨?_, ?_, ?_, ?_, ?_, ?_⟩
  · intro cfg eid pn cd net h
    simp [post_cue_to_supabase, hnc cfg h]
  · intro cfg eid net h
    simp [create_event_in_supabase, hnc cfg h]
  · intro cfg eid pn cd st body hconf
    constructor
    · by_cases hst : st = 200 ∨ st = 201 ∨ st = 204
      · simp [post_cue_to_supabase, hconf, hst, CueResult.isSuccess]
      · simp [post_cue_to_supabase, hconf, hst, CueResult.isSuccess]
    · simp [post_cue_to_supabase, hconf]
  · intro cfg eid pn cd m hconf
    simp [post_cue_to_supabase, hconf]
  · intro cfg eid st body hconf
    constructor
    · by_cases hst : st = 200 ∨ st = 201 ∨ st = 204
      · simp [create_event_in_supabase, hconf, hst, CueResult.isSuccess]
      · simp [create_event_in_supabase, hconf, hst, CueResult.isSuccess]
    · simp [create_event_in_supabase, hconf]
  · intro cfg eid m hconf
    simp [create_event_in_supabase, hconf]

/-- C8 witness: the unconfigured short-circuit and the configured status
    classification applied at concrete calls. -/
theorem C8_cue_publisher_results_witness :
    post_cue_to_supabase { supabase_url := [], supabase_api_key := ("k").toList }
        (("2026-10-11").toList) (("giving").toList) none (.response 201 []) =
      (.failure (("Supabase not configured").toList), none) ∧
    ((create_event_in_supabase
        { supabase_url := ("su").toList, supabase_api_key := ("k").toList }
        (("2026-10-11").toList) (.response 201 [])).1.isSuccess = true ↔
      (201 : ℕ) = 200 ∨ (201 : ℕ) = 201 ∨ (201 : ℕ) = 204) :=
  ⟨C8_cue_publisher_results.1
      { supabase_url := [], supabase_api_key := ("k").toList }
      (("2026-10-11").toList) (("giving").toList) none (.response 201 [])
      (Or.inl rfl),
    (C8_cue_publisher_results.2.2.2.2.1
      { supabase_url := ("su").toList, supabase_api_key := ("k").toList }
      (("2026-10-11").toList) 201 [] (by decide)).1⟩

theorem manualStep_spec (now : SchedNow) (net : NetOracle) (i : ℕ)
    (e : ManualEvent) :
    manualStep now net i e = (e, []) ∨
    (∃ r : CueResult, r.isSuccess = true ∧
      manualStep now net i e = ({ e with created := true }, [(i, r)])) ∨
    (∃ r : CueResult, r.isSuccess = false ∧
      manualStep now net i e = (e, [(i, r)])) := by
  unfold manualStep
  by_cases h1 : e.created
  · rw [if_pos h1]
    exact Or.inl rfl
  rw [if_neg h1]
  by_cases h2 : e.date = now.dateStr
  · rw [if_pos h2]
    cases hp : parseHM e.time with
    | none =>
        left
        simp only [hp]
    | some hm =>
        obtain ⟨hh, mm⟩ := hm
        simp only [hp]
        by_cases h3 : now.hour = hh ∧ now.minute = mm
        · rw [if_pos h3]
          by_cases h4 :
            (create_event_in_supabase (net i).1 e.date (net i).2).1.isSuccess = true
          · rw [if_pos h4]
            exact Or.inr (Or.inl ⟨_, h4, rfl⟩)
          · rw [if_neg h4]
            exact Or.inr (Or.inr ⟨_, by simpa using h4, rfl⟩)
        · rw [if_neg h3]
          exact Or.inl rfl
  · rw [if_neg h2]
    exact Or.inl rfl

theorem manualStep_created {now : SchedNow} {net : NetOracle} {i : ℕ}
    {e : ManualEvent} (h : e.created = true) :
    manualStep now net i e = (e, []) := by
  unfold manualStep
  rw [if_pos h]

theorem manualStep_calls_idx {now : SchedNow} {net : NetOracle} {i : ℕ}
    {e : ManualEvent} : ∀ c ∈ (manualStep now net i e).2, c.1 = i := by
  intro c hc
  rcases manualStep_spec now net i e with h | ⟨r, -, h⟩ | ⟨r, -, h⟩ <;>
    rw [h] at hc <;> simp_all

theorem manualStep_calls_len {now : SchedNow} {net : NetOracle} {i : ℕ}
    {e : ManualEvent} : (manualStep now net i e).2.length ≤ 1 := by
  rcases manualStep_spec now net i e with h | ⟨r, -, h⟩ | ⟨r, -, h⟩ <;>
    rw [h] <;> simp

theorem countP_zero_of_ne {j : ℕ} {calls : List (ℕ × CueResult)}
    (h : ∀ c ∈ calls, c.1 ≠ j) : callsAt j calls = 0 := by
  unfold callsAt
  rw [List.countP_eq_zero]
  intro c hc
  simpa using h c hc

theorem succAt_le_callsAt (j : ℕ) (calls : List (ℕ × CueResult)) :
    succAt j calls ≤ callsAt j calls := by
  unfold succAt callsAt
  apply List.countP_mono_left
  intro c _ hp
  simp only [Bool.and_eq_true] at hp
  exact hp.1

theorem manualLoop_calls_ge (now : SchedNow) (net : NetOracle) :
    ∀ (l : List ManualEvent) (i : ℕ), ∀ c ∈ (manualLoop now net i l).2, i ≤ c.1 := by
  intro l
  induction l with
  | nil => intro i c hc; simp [manualLoop] at hc
  | cons e rest ih =>
      intro i c hc
      simp only [manualLoop, List.mem_append] at hc
      rcases hc with hc | hc
      · exact (manualStep_calls_idx c hc).ge
      · exact (Nat.le_succ i).trans (ih (i + 1) c hc)

theorem manualLoop_calls_lt (now : SchedNow) (net : NetOracle) :
    ∀ (l : List ManualEvent) (i : ℕ),
      ∀ c ∈ (manualLoop now net i l).2, c.1 < i + l.length := by
  intro l
  induction l with
  | nil => intro i c hc; simp [manualLoop] at hc
  | cons e rest ih =>
      intro i c hc
      simp only [manualLoop, List.mem_append] at hc
      rcases hc with hc | hc
      · rw [manualStep_calls_idx c hc]
        simp only [List.length_cons]
        omega
      · have := ih (i + 1) c hc
        simp only [List.length_cons]
        omega

theorem manualLoop_length (now : SchedNow) (net : NetOracle) :
    ∀ (l : List ManualEvent) (i : ℕ), (manualLoop now net i l).1.length = l.length := by
  intro l
  induction l with
  | nil => intro i; rfl
  | cons e rest ih =>
      intro i
      simp only [manualLoop, List.length_cons, ih (i + 1)]

theorem manualLoop_created_skip (now : SchedNow) (net : NetOracle) :
    ∀ (l : List ManualEvent) (i p : ℕ) (e : ManualEvent),
      l.get? p = some e → e.created = true →
      (manualLoop now net i l).1.get? p = some e ∧
        callsAt (i + p) (manualLoop now net i l).2 = 0 := by
  intro l
  induction l with
  | nil => intro i p e h hc; simp at h
  | cons e0 rest ih =>
      intro i p e h hc
      cases p with
      | zero =>
          simp only [List.get?] at h
          injection h with h
          subst h
          simp only [manualLoop, manualStep_created hc, Nat.add_zero]
          refine ⟨rfl, ?_⟩
          simp only [List.nil_append]
          apply countP_zero_of_ne
          intro c hc2
          have := manualLoop_calls_ge now net rest (i + 1) c hc2
          omega
      | succ p =>
          simp only [List.get?] at h
          have hih := ih (i + 1) p e h hc
          simp only [manualLoop]
          constructor
          · simpa using hih.1
          · have hidx : i + (p + 1) = (i + 1) + p := by omega
            rw [hidx]
            unfold callsAt at hih ⊢
            rw [List.countP_append]
            rw [hih.2]
            have hz : List.countP (fun c => c.1 == (i + 1) + p)
                (manualStep now net i e0).2 = 0 := by
              apply List.countP_eq_zero.mpr
              intro c hcmem
              have := manualStep_calls_idx c hcmem
              simp only [beq_iff_eq]
              omega
            rw [hz]

theorem manualLoop_callsAt_le_one (now : SchedNow) (net : NetOracle) :
    ∀ (l : List ManualEvent) (i j : ℕ),
      callsAt j (manualLoop now net i l).2 ≤ 1 := by
  intro l
  induction l with
  | nil => intro i j; simp [manualLoop, callsAt]
  | cons e0 rest ih =>
      intro i j
      simp only [manualLoop]
      unfold callsAt
      rw [List.countP_append]
      by_cases hj : j = i
      · subst hj
        have h1 : List.countP (fun c => c.1 == j) (manualStep now net j e0).2 ≤ 1 :=
          le_trans (List.countP_le_length _) manualStep_calls_len
        have h2 : List.countP (fun c => c.1 == j)
            (manualLoop now net (j + 1) rest).2 = 0 := by
          apply List.countP_eq_zero.mpr
          intro c hcmem
          have := manualLoop_calls_ge now net rest (j + 1) c hcmem
          simp only [beq_iff_eq]
          omega
        omega
      · have h1 : List.countP (fun c => c.1 == j) (manualStep now net i e0).2 = 0 := by
          apply List.countP_eq_zero.mpr
          intro c hcmem
          have := manualStep_calls_idx c hcmem
          simp only [beq_iff_eq]
          omega
        have h2 := ih (i + 1) j
        unfold callsAt at h2
        omega

theorem manualLoop_succ_created (now : SchedNow) (net : NetOracle) :
    ∀ (l : List ManualEvent) (i p : ℕ) (e : ManualEvent),
      l.get? p = some e →
      1 ≤ succAt (i + p) (manualLoop now net i l).2 →
      ((manualLoop now net i l).1.get? p).map ManualEvent.created = some true := by
  intro l
  induction l with
  | nil => intro i p e h hs; simp at h
  | cons e0 rest ih =>
      intro i p e h hs
      simp only [manualLoop] at hs ⊢
      unfold succAt at hs
      rw [List.countP_append] at hs
      cases p with
      | zero =>
          have h2 : List.countP (fun c => c.1 == i + 0 && c.2.isSuccess)
              (manualLoop now net (i + 1) rest).2 = 0 := by
            apply List.countP_eq_zero.mpr
            intro c hcmem
            have := manualLoop_calls_ge now net rest (i + 1) c hcmem
            simp only [Bool.and_eq_true, beq_iff_eq]
            intro hcon
            omega
          rw [h2] at hs
          rcases manualStep_spec now net i e0 with hstep | ⟨r, hr, hstep⟩ |
              ⟨r, hr, hstep⟩ <;> rw [hstep] at hs ⊢
          · simp at hs
          · simp
          · simp only [List.countP_cons, List.countP_nil, hr, Bool.and_false] at hs
            simp at hs
      | succ p =>
          have h1 : List.countP (fun c => c.1 == i + (p + 1) && c.2.isSuccess)
              (manualStep now net i e0).2 = 0 := by
            apply List.countP_eq_zero.mpr
            intro c hcmem
            have := manualStep_calls_idx c hcmem
            simp only [Bool.and_eq_true, beq_iff_eq]
            intro hcon
            omega
          rw [h1] at hs
          have hidx : i + (p + 1) = (i + 1) + p := by omega
          rw [hidx] at hs
          simp only [List.get?] at h
          have := ih (i + 1) p e h (by simpa [succAt] using hs)
          simpa using this

theorem runManual_created_skip :
    ∀ (ticks : List (SchedNow × NetOracle)) (evs : List ManualEvent) (p : ℕ)
      (e : ManualEvent), evs.get? p = some e → e.created = true →
      (runManualTicks evs ticks).1.get? p = some e ∧
        callsAt p (runManualTicks evs ticks).2 = 0 := by
  intro ticks
  induction ticks with
  | nil =>
      intro evs p e h hc
      exact ⟨h, rfl⟩
  | cons t ts ih =>
      intro evs p e h hc
      have h1 := manualLoop_created_skip t.1 t.2 evs 0 p e h hc
      rw [Nat.zero_add] at h1
      have h2 := ih (check_manual_events t.1 t.2 evs).1 p e h1.1 hc
      simp only [runManualTicks]
      refine ⟨h2.1, ?_⟩
      unfold callsAt at h1 h2 ⊢
      rw [List.countP_append, h2.2]
      have := h1.2
      unfold check_manual_events at this ⊢
      omega

theorem runManual_succ_le_one :
    ∀ (ticks : List (SchedNow × NetOracle)) (evs : List ManualEvent) (p : ℕ),
      succAt p (runManualTicks evs ticks).2 ≤ 1 := by
  intro ticks
  induction ticks with
  | nil =>
      intro evs p
      unfold runManualTicks succAt
      exact le_trans (List.countP_le_length _) (by simp)
  | cons t ts ih =>
      intro evs p
      simp only [runManualTicks, check_manual_events]
      unfold succAt
      rw [List.countP_append]
      by_cases h1 : 1 ≤ List.countP (fun c => c.1 == p && c.2.isSuccess)
          (manualLoop t.1 t.2 0 evs).2
      · have hlt : p < evs.length := by
          by_contra hge
          push_neg at hge
          have hz : List.countP (fun c => c.1 == p && c.2.isSuccess)
              (manualLoop t.1 t.2 0 evs).2 = 0 := by
            apply List.countP_eq_zero.mpr
            intro c hcmem
            have hc1 := manualLoop_calls_lt t.1 t.2 evs 0 c hcmem
            simp only [Bool.and_eq_true, beq_iff_eq]
            rintro ⟨hc2, -⟩
            omega
          omega
        obtain ⟨e, he⟩ : ∃ e, evs.get? p = some e := by
          rw [List.get?_eq_get hlt]
          exact ⟨_, rfl⟩
        have h2 := manualLoop_succ_created t.1 t.2 evs 0 p e he
          (show 1 ≤ succAt (0 + p) (manualLoop t.1 t.2 0 evs).2 by
            rw [Nat.zero_add]
            unfold succAt
            exact h1)
        obtain ⟨e2, he2, hc2⟩ :
            ∃ e2, (manualLoop t.1 t.2 0 evs).1.get? p = some e2 ∧
              e2.created = true := by
          cases hr : (manualLoop t.1 t.2 0 evs).1.get? p with
          | none =>
              rw [hr] at h2
              simp at h2
          | some e2 =>
              rw [hr] at h2
              simp at h2
              exact ⟨e2, rfl, h2⟩
        have h3 := runManual_created_skip ts (manualLoop t.1 t.2 0 evs).1 p e2 he2 hc2
        have h4 : List.countP (fun c => c.1 == p && c.2.isSuccess)
            (runManualTicks (manualLoop t.1 t.2 0 evs).1 ts).2 = 0 := by
          have hle := succAt_le_callsAt p
            (runManualTicks (manualLoop t.1 t.2 0 evs).1 ts).2
          have h32 := h3.2
          unfold succAt callsAt at hle h32
          omega
        have h5 : List.countP (fun c => c.1 == p && c.2.isSuccess)
            (manualLoop t.1 t.2 0 evs).2 ≤ 1 := by
          have hle := succAt_le_callsAt p (manualLoop t.1 t.2 0 evs).2
          have hb := manualLoop_callsAt_le_one t.1 t.2 evs 0 p
          unfold succAt callsAt at hle hb
          omega
        omega
      · push_neg at h1
        have h2 := ih (manualLoop t.1 t.2 0 evs).1 p
        unfold succAt at h2
        omega

/-- C2: a manual event whose created flag is set is never called again by
    any tick of any trace (and the stored event is left untouched); across
    every trace of scheduler ticks, threading the persisted list from tick
    to tick (which also covers process restarts, because the flag lives in
    the persisted document), at most one successful createEvent call
    happens per manual event; and within the tick whose createEvent for an
    event succeeds, the list returned for persistence already carries
    created = true for that event. -/
theorem C2_manual_at_most_once :
    (∀ (ticks : List (SchedNow × NetOracle)) (evs : List ManualEvent) (p : ℕ)
        (e : ManualEvent), evs.get? p = some e → e.created = true →
        (runManualTicks evs ticks).1.get? p = some e ∧
          callsAt p (runManualTicks evs ticks).2 = 0) ∧
    (∀ (ticks : List (SchedNow × NetOracle)) (evs : List ManualEvent) (p : ℕ),
        succAt p (runManualTicks evs ticks).2 ≤ 1) ∧
    (∀ (now : SchedNow) (net : NetOracle) (evs : List ManualEvent) (p : ℕ)
        (e : ManualEvent), evs.get? p = some e →
        1 ≤ succAt p (check_manual_events now net evs).2 →
        ((check_manual_events now net evs).1.get? p).map ManualEvent.created =
          some true) :=
  ⟨runManual_created_skip, runManual_succ_le_one,
    fun now net evs p e he hs =>
      manualLoop_succ_created now net evs 0 p e he
        (by rw [Nat.zero_add]; exact hs)⟩

/-- C2 witness: an already-created manual event on its matching date and
    minute is not called across a tick trace. -/
theorem C2_manual_at_most_once_witness :
    (runManualTicks
        [{ date := ("2026-10-12").toList, time := ("11:00").toList,
           created := true }]
        [(⟨("2026-10-12").toList, ("monday").toList, 11, 0⟩,
          fun _ => (⟨("su").toList, ("k").toList⟩, HttpOutcome.response 201 []))]).1.get? 0 =
      some { date := ("2026-10-12").toList, time := ("11:00").toList,
             created := true } ∧
    callsAt 0
      (runManualTicks
        [{ date := ("2026-10-12").toList, time := ("11:00").toList,
           created := true }]
        [(⟨("2026-10-12").toList, ("monday").toList, 11, 0⟩,
          fun _ => (⟨("su").toList, ("k").toList⟩, HttpOutcome.response 201 []))]).2 = 0 :=
  C2_manual_at_most_once.1
    [(⟨("2026-10-12").toList, ("monday").toList, 11, 0⟩,
      fun _ => (⟨("su").toList, ("k").toList⟩, HttpOutcome.response 201 []))]
    [{ date := ("2026-10-12").toList, time := ("11:00").toList, created := true }]
    0
    { date := ("2026-10-12").toList, time := ("11:00").toList, created := true }
    rfl rfl

/-- C3: evaluation of the code at the failing input of the claim.  A
    recurring event scheduled for sunday 00:00, with two scheduler ticks
    during the minute 00:00 of Sunday 2026-10-11 and a remote that accepts
    both calls, leads to two successful createEvent calls under the same
    dedup key on the same calendar day: the midnight cleanup runs at the
    end of every tick whose clock reads 00:00 and erases the key the same
    tick just recorded, so the claimed at-most-once-per-day property
    fails even though the key is recorded exactly on success. -/
theorem C3_midnight_double_fire :
    succAtKey (("2026-10-11_00:00").toList)
      (runScheduledTicks
        [{ day := ("sunday").toList, time := ("00:00").toList, enabled := true }]
        []
        [(⟨("2026-10-11").toList, ("sunday").toList, 0, 0⟩,
          fun _ => (⟨("su").toList, ("k").toList⟩, HttpOutcome.response 201 [])),
         (⟨("2026-10-11").toList, ("sunday").toList, 0, 0⟩,
          fun _ => (⟨("su").toList, ("k").toList⟩, HttpOutcome.response 201 []))]).2 = 2 := by
  decide
